import Mathlib

/-!
Verification development for the `a11y-audit` native scanner
(`src/native/src/parser/*.rs`, `src/native/src/engine.rs`).

The Rust code is shallowly embedded: source text is a `List Char` (all
inputs of interest are ASCII), byte indices are `Nat`, Rust `f32`
arithmetic is modelled by exact rational arithmetic (`Rat`; every
concrete opacity value appearing in the specification is dyadic, where
IEEE multiplication is exact), and fallible/panicking code returns
`Option` (`none` models a Rust panic).  Loops are written with an
explicit fuel argument so that every definition is structurally
recursive and computable by the kernel; fuel is always instantiated to
at least `length + 2`, which is sufficient because every loop iteration
of the Rust code advances its cursor by at least one byte (the
`stepTok_mono`-style lemmas below record this).
-/

set_option maxRecDepth 4000
set_option maxHeartbeats 1000000

/-! ## Character constants

Characters that the task's surface syntax makes awkward to write as
literals are defined once via their ASCII codes. -/

def chQuote : Char := Char.ofNat 34

def chSQuote : Char := Char.ofNat 39

def chBacktick : Char := Char.ofNat 96

def chBackslash : Char := Char.ofNat 92

def chLBrace : Char := Char.ofNat 123

def chRBrace : Char := Char.ofNat 125

def chNewline : Char := Char.ofNat 10

def chTab : Char := Char.ofNat 9

def chCR : Char := Char.ofNat 13

/-- `u8::is_ascii_whitespace` in Rust: space, tab, newline, carriage
return and form feed. -/
def isAsciiWs (c : Char) : Bool :=
  c = ' ' || c = chTab || c = chNewline || c = chCR || c = Char.ofNat 12

/-- ASCII fragment of Rust `char::is_whitespace` (used by `str::trim`
and `split_whitespace`); non-ASCII Unicode whitespace is not modelled. -/
def isTrimWs (c : Char) : Bool :=
  isAsciiWs c || c = Char.ofNat 11

/-! ## List-of-char string primitives (Rust `&str` operations) -/

/-- Indexing `bytes[i]`; the Rust code only indexes in bounds, the
default is irrelevant. -/
def chAt (s : List Char) (i : Nat) : Char := s.getD i (Char.ofNat 0)

/-- Total slice `&s[a..b]` for the in-bounds, well-ordered case. -/
def sliceL (s : List Char) (a b : Nat) : List Char := (s.drop a).take (b - a)

/-- Rust slicing `&s[a..b]`: panics (here `none`) when `a > b` or
`b > s.len()`. -/
def rustSliceL (s : List Char) (a b : Nat) : Option (List Char) :=
  if a ≤ b ∧ b ≤ s.length then some (sliceL s a b) else none

/-- Rust `str::trim`, restricted to ASCII whitespace. -/
def trimL (s : List Char) : List Char :=
  ((s.dropWhile isTrimWs).reverse.dropWhile isTrimWs).reverse

/-- Rust `str::strip_prefix`. -/
def stripPrefixL (pat s : List Char) : Option (List Char) :=
  if pat.isPrefixOf s then some (s.drop pat.length) else none

/-- Rust `str::strip_suffix`. -/
def stripSuffixL (pat s : List Char) : Option (List Char) :=
  if pat.isSuffixOf s then some (s.take (s.length - pat.length)) else none

/-- Rust `str::starts_with`. -/
def startsWithL (pat s : List Char) : Bool := pat.isPrefixOf s

/-- Rust `str::split_whitespace` (ASCII whitespace), written with an
accumulator for the token currently being read. -/
def splitWsAux : List Char → List Char → List (List Char)
  | [], acc => if acc = [] then [] else [acc.reverse]
  | c :: rest, acc =>
    if isTrimWs c then
      if acc = [] then splitWsAux rest [] else acc.reverse :: splitWsAux rest []
    else splitWsAux rest (c :: acc)

def splitWsL (s : List Char) : List (List Char) := splitWsAux s []

/-- First index (Rust `str::find`) at which `pat` occurs in `s`. -/
def findSubstrL (s pat : List Char) : Option Nat :=
  go s 0
where
  go : List Char → Nat → Option Nat
    | [], i => if pat.isPrefixOf ([] : List Char) then some i else none
    | c :: rest, i =>
      if pat.isPrefixOf (c :: rest) then some i else go rest (i + 1)

/-- String-level wrappers used by the trackers. -/
def rustTrim (s : String) : String := (trimL s.toList).asString

def stripPrefixStr (pat s : String) : Option String :=
  (stripPrefixL pat.toList s.toList).map List.asString

def startsWithStr (pat s : String) : Bool := startsWithL pat.toList s.toList

def splitWsStr (s : String) : List String := (splitWsL s.toList).map List.asString

/-- Value of a list of decimal digit characters. -/
def digitsToNat (ds : List Char) : Nat :=
  ds.foldl (fun acc d => 10 * acc + (d.toNat - 48)) 0

/-- Rust `str::parse::<u32>()`: optional leading `+`, then one or more
digits.  (Values above `u32::MAX` error out in Rust; every use below
rejects values above 100 anyway, so overflow is observationally
irrelevant and not modelled.) -/
def parseU32L (s : List Char) : Option Nat :=
  let digits := match s with
    | c :: rest => if c = '+' then rest else s
    | [] => []
  if digits ≠ [] ∧ digits.all Char.isDigit then some (digitsToNat digits) else none

/-! ## Exact fractions

Rust `f32` values are modelled by exact fractions.  (Core `Rat`
arithmetic does not reduce inside the kernel, so a plain pair of
integers is used instead; every operation below keeps the denominator
positive, fractions are not reduced, and equality/order of values is
cross-multiplication — `qEqv` / `qLe`.  Every concrete opacity value in
the specification is dyadic, where IEEE `f32` arithmetic is exact, so
exact fractions are a faithful model of the values this development
evaluates.) -/

structure Q where
  num : Int
  den : Int
deriving DecidableEq, Repr

def qOfNat (n : Nat) : Q := ⟨n, 1⟩

def qOne : Q := ⟨1, 1⟩

def qMul (a b : Q) : Q := ⟨a.num * b.num, a.den * b.den⟩

/-- Division by a positive integer constant (the only divisions the
Rust code performs: `/ 100.0` and the decimal scaling `/ 10^k`). -/
def qDivPos (a : Q) (d : Int) : Q := ⟨a.num, a.den * d⟩

def qAdd (a b : Q) : Q := ⟨a.num * b.den + b.num * a.den, a.den * b.den⟩

/-- Value equality of fractions (cross-multiplication; denominators are
positive for every value built here). -/
def qEqv (a b : Q) : Prop := a.num * b.den = b.num * a.den

instance : Decidable (qEqv a b) := by unfold qEqv; infer_instance

/-- Value order of fractions (cross-multiplication). -/
def qLe (a b : Q) : Prop := a.num * b.den ≤ b.num * a.den

instance : Decidable (qLe a b) := by unfold qLe; infer_instance

/-- Boolean version of `qLe`, mirroring the Rust `f32` comparison. -/
def qBle (a b : Q) : Bool := decide (qLe a b)

/-- Rust `str::parse::<f32>()`, restricted to plain decimal literals
with an optional sign (`50`, `.33`, `0.33`, `1.`, `-2.5`).  Scientific
notation and `inf`/`NaN` forms accepted by Rust are not modelled; no
token produced by the opacity-utility grammar uses them.  The value is
kept exact. -/
def parseF32L (s : List Char) : Option Q :=
  let (sgn, t) : Int × List Char := match s with
    | c :: rest =>
      if c = '+' then (1, rest) else if c = '-' then (-1, rest) else (1, s)
    | [] => (1, [])
  let intDigits := t.takeWhile Char.isDigit
  let afterInt := t.drop intDigits.length
  match afterInt with
  | [] =>
    if intDigits = [] then none
    else some ⟨sgn * digitsToNat intDigits, 1⟩
  | c :: rest =>
    if c = '.' ∧ rest.all Char.isDigit ∧ (intDigits ≠ [] ∨ rest ≠ []) then
      let mag := qAdd (qOfNat (digitsToNat intDigits))
        (qDivPos (qOfNat (digitsToNat rest)) ((10 : Int) ^ rest.length))
      some ⟨sgn * mag.num, mag.den⟩
    else none

/-! ## `parser/opacity.rs` -/

/-- `parse_opacity_class`: parse one utility token into an opacity
value.  Mirrors `src/native/src/parser/opacity.rs`. -/
def parseOpacityClassL (cls : List Char) : Option Q :=
  match stripPrefixL ("opacity-".toList) cls with
  | none => none
  | some suffix =>
    if suffix = [] then none
    else
      match (stripPrefixL ['['] suffix).bind (stripSuffixL [']']) with
      | some inner =>
        if inner = [] then none
        else
          match stripSuffixL ['%'] inner with
          | some pctStr => (parseF32L pctStr).map (fun q => qDivPos q 100)
          | none => parseF32L inner
      | none =>
        (parseU32L suffix).bind
          (fun n => if n > 100 then none else some (qDivPos (qOfNat n) 100))

def parseOpacityClass (cls : String) : Option Q := parseOpacityClassL cls.toList

/-- Preceding-character word-boundary set used by the raw-tag scanners
(`opacity.rs` / `context_tracker.rs`): whitespace, quotes, backtick,
`(` and `,`. -/
def isPrevDelim (c : Char) : Bool :=
  isAsciiWs c || c = chQuote || c = chSQuote || c = chBacktick || c = '(' || c = ','

/-- Class-token terminator set used by the raw-tag scanners: whitespace,
quotes, backtick, `)` and `,`. -/
def isTokEnd (c : Char) : Bool :=
  isAsciiWs c || c = chQuote || c = chSQuote || c = chBacktick || c = ')' || c = ','

/-- `find_opacity_in_raw_tag`: first non-variant `opacity-*` class in a
raw tag.  `fuel` is instantiated with `length + 2` (the loop advances by
at least one byte per iteration, so this never runs out). -/
def findOpacityGo (s : List Char) : Nat → Nat → Option Q
  | 0, _ => none
  | fuel + 1, i =>
    if i + 8 < s.length then
      if sliceL s i (i + 8) = "opacity-".toList then
        if 0 < i ∧ chAt s (i - 1) = ':' then findOpacityGo s fuel (i + 1)
        else if 0 < i ∧ (chAt s (i - 1) = '-' ∨ (chAt s (i - 1)).isAlphanum = true ∨
            chAt s (i - 1) = '_') then findOpacityGo s fuel (i + 1)
        else if 0 < i ∧ ¬ isPrevDelim (chAt s (i - 1)) then findOpacityGo s fuel (i + 1)
        else
          let tokLen := ((s.drop i).takeWhile (fun c => !isTokEnd c)).length
          let cls := sliceL s i (i + tokLen)
          match parseOpacityClassL cls with
          | some val => some val
          | none => findOpacityGo s fuel (i + tokLen)
      else findOpacityGo s fuel (i + 1)
    else none

def findOpacityInRawTagL (s : List Char) : Option Q :=
  findOpacityGo s (s.length + 2) 0

def findOpacityInRawTag (raw : String) : Option Q := findOpacityInRawTagL raw.toList

/-! ## `parser/context_tracker.rs` -/

/-- `BG_NON_COLOR`: background utilities that are not color classes. -/
def bgNonColor : List String :=
  ["bg-clip-text", "bg-no-repeat", "bg-cover", "bg-contain",
   "bg-fixed", "bg-local", "bg-scroll"]

/-- `find_explicit_bg_in_raw_tag`: first explicit `bg-*` color class in
a raw tag, skipping variant-prefixed occurrences and non-color
background utilities. -/
def findExplicitBgGo (s : List Char) : Nat → Nat → Option (List Char)
  | 0, _ => none
  | fuel + 1, i =>
    if i + 3 < s.length then
      if chAt s i = 'b' ∧ chAt s (i + 1) = 'g' ∧ chAt s (i + 2) = '-' then
        if 0 < i ∧ chAt s (i - 1) = ':' then findExplicitBgGo s fuel (i + 1)
        else if 0 < i ∧ ¬ isPrevDelim (chAt s (i - 1)) then findExplicitBgGo s fuel (i + 1)
        else
          let tokLen := ((s.drop i).takeWhile (fun c => !isTokEnd c)).length
          let cls := sliceL s i (i + tokLen)
          if startsWithL "bg-linear-".toList cls ∨ startsWithL "bg-gradient-".toList cls ∨
              cls.asString ∈ bgNonColor then
            findExplicitBgGo s fuel (i + tokLen)
          else some cls
      else findExplicitBgGo s fuel (i + 1)
    else none

def findExplicitBgInRawTag (raw : String) : Option String :=
  (findExplicitBgGo raw.toList (raw.toList.length + 2) 0).map List.asString

/-- One entry of the background/opacity context stack
(`StackEntry` in `context_tracker.rs`).  The head of `CtState.stack`
models the top (the last pushed element of the Rust `Vec`). -/
structure CtEntry where
  tag : String
  bgClass : String
  isAnnotEntry : Bool
  cumulativeOpacity : Q
deriving DecidableEq, Repr

/-- `ContextTracker` state.  `containerConfig` models the injected
`HashMap<String, String>` as an association list; `configGet` mirrors
`HashMap::get` for a map built by `collect` (later duplicate keys
override earlier ones, hence the reversed search). -/
structure CtState where
  containerConfig : List (String × String)
  defaultBg : String
  stack : List CtEntry
  pendingBlockOverride : Option String
deriving DecidableEq, Repr

def configGet (cfg : List (String × String)) (k : String) : Option String :=
  (cfg.reverse.find? (fun p => p.1 = k)).map (·.2)

/-- `ContextTracker::current_bg`. -/
def ctCurrentBg (st : CtState) : String :=
  match st.stack with
  | [] => st.defaultBg
  | e :: _ => e.bgClass

/-- `ContextTracker::current_opacity`. -/
def ctCurrentOpacity (st : CtState) : Q :=
  match st.stack with
  | [] => qOne
  | e :: _ => e.cumulativeOpacity

/-- `ContextTracker::resolve_pending_block`.  Note that the Rust code
calls `Option::take` on the pending slot before testing
`is_self_closing`, so the slot is cleared even when nothing is pushed. -/
def ctResolvePendingBlock (st : CtState) (tagName : String) (isSelfClosing : Bool) :
    CtState :=
  match st.pendingBlockOverride with
  | none => st
  | some bg =>
    if isSelfClosing then { st with pendingBlockOverride := none }
    else
      { st with
        pendingBlockOverride := none
        stack := ⟨"_annotation_" ++ tagName, bg, true, ctCurrentOpacity st⟩ :: st.stack }

/-- `ContextTracker::on_tag_open` (`JsxVisitor` impl). -/
def ctOnTagOpen (st : CtState) (tagName : String) (isSelfClosing : Bool)
    (rawTag : String) : CtState :=
  if isSelfClosing then st
  else
    let opacity := findOpacityInRawTag rawTag
    let parentOpacity := ctCurrentOpacity st
    let cumulative := qMul parentOpacity (opacity.getD qOne)
    match configGet st.containerConfig tagName with
    | some configBg =>
      let bg := (findExplicitBgInRawTag rawTag).getD configBg
      { st with stack := ⟨tagName, bg, false, cumulative⟩ :: st.stack }
    | none =>
      match findExplicitBgInRawTag rawTag with
      | some bg => { st with stack := ⟨tagName, bg, false, cumulative⟩ :: st.stack }
      | none =>
        if opacity.isSome then
          { st with stack := ⟨tagName, ctCurrentBg st, false, cumulative⟩ :: st.stack }
        else st

/-- `ContextTracker::on_tag_close`.  The Rust code first tests the top
of the stack, then falls back to an `rposition` search from the top and
truncates just above the found entry; with the head of the list as the
top, both are the first index whose tag matches, with everything up to
and including it removed. -/
def ctOnTagClose (st : CtState) (tagName : String) : CtState :=
  match st.stack.findIdx? (fun e =>
      e.tag = tagName || e.tag = "_annotation_" ++ tagName) with
  | some k => { st with stack := st.stack.drop (k + 1) }
  | none => st

/-- `ContextTracker::on_comment`: recognize `@a11y-context-block bg:…`
and store the pending block override (the last `bg:` token wins). -/
def ctOnComment (st : CtState) (content : String) : CtState :=
  let trimmed := rustTrim content
  match stripPrefixStr "@a11y-context-block" trimmed with
  | some body =>
    { st with
      pendingBlockOverride :=
        (splitWsStr (rustTrim body)).foldl
          (fun acc tok =>
            match stripPrefixStr "bg:" tok with
            | some bg => some bg
            | none => acc)
          st.pendingBlockOverride }
  | none => st

/-! ## `parser/annotation_parser.rs` (single-element annotations) -/

/-- `ContextOverride` parsed from an `@a11y-context` comment. -/
structure ContextOverride where
  bg : Option String
  fg : Option String
  noInherit : Bool
deriving DecidableEq, Repr

/-- The two one-shot pending slots of the single-element tracker. -/
structure ApState where
  pendingContext : Option ContextOverride
  pendingIgnore : Option String
deriving DecidableEq, Repr

/-- `parse_context_params`: `bg:<v> [fg:<v>] [no-inherit]`; valid only
if at least one of `bg`/`fg` is present. -/
def parseContextParams (paramString : String) : Option ContextOverride :=
  let ctx := (splitWsStr (rustTrim paramString)).foldl
    (fun (c : ContextOverride) tok =>
      match stripPrefixStr "bg:" tok with
      | some bg => { c with bg := some bg }
      | none =>
        match stripPrefixStr "fg:" tok with
        | some fg => { c with fg := some fg }
        | none => if tok = "no-inherit" then { c with noInherit := true } else c)
    ⟨none, none, false⟩
  if ctx.bg = none ∧ ctx.fg = none then none else some ctx

/-- `AnnotationParser::on_comment`. -/
def apOnComment (st : ApState) (content : String) : ApState :=
  let trimmed := rustTrim content
  if startsWithStr "@a11y-context-block" trimmed then st
  else
    match stripPrefixStr "@a11y-context" trimmed with
    | some body =>
      match parseContextParams body with
      | some ctx => { st with pendingContext := some ctx }
      | none => st
    | none =>
      match stripPrefixStr "a11y-ignore" trimmed with
      | some rest =>
        let reason := match stripPrefixStr ":" rest with
          | some afterColon => rustTrim afterColon
          | none => ""
        { st with pendingIgnore := some reason }
      | none => st

/-! ## `parser/disabled_detector.rs` -/

/-- Standalone `disabled`-attribute scan loop of `is_disabled_tag`.
`fuel` instantiated with `length + 2`. -/
def disabledScanGo (s : List Char) : Nat → Nat → Bool
  | 0, _ => false
  | fuel + 1, i =>
    if i + 8 ≤ s.length then
      if sliceL s i (i + 8) = "disabled".toList then
        if 5 ≤ i ∧ sliceL s (i - 5) i = "aria-".toList then disabledScanGo s fuel (i + 8)
        else if 0 < i ∧ ¬ (chAt s (i - 1) = ' ' ∨ chAt s (i - 1) = chTab ∨
            chAt s (i - 1) = chNewline ∨ chAt s (i - 1) = chCR) then
          disabledScanGo s fuel (i + 1)
        else if s.length ≤ i + 8 then true
        else
          let afterCh := chAt s (i + 8)
          if afterCh = ' ' ∨ afterCh = chTab ∨ afterCh = chNewline ∨
              afterCh = '>' ∨ afterCh = '/' then true
          else if afterCh = '=' then
            if i + 9 < s.length then
              if startsWithL "=\x7bfalse\x7d".toList (s.drop (i + 8)) then
                disabledScanGo s fuel (i + 8)
              else true
            else disabledScanGo s fuel (i + 1)
          else disabledScanGo s fuel (i + 1)
      else disabledScanGo s fuel (i + 1)
    else false

/-- `is_disabled_tag`: `aria-disabled` true-patterns at the first
occurrence of `aria-disabled`, plus the standalone `disabled` scan. -/
def isDisabledTag (rawTag : String) : Bool :=
  let s := rawTag.toList
  let ariaHit :=
    match findSubstrL s "aria-disabled".toList with
    | some pos =>
      let preAfter := pos + "aria-disabled".length
      if preAfter < s.length then
        let rest := s.drop preAfter
        startsWithL "=\"true\"".toList rest || startsWithL "='true'".toList rest ||
        startsWithL "=\x7btrue\x7d".toList rest ||
        startsWithL "=\x7b\"true\"\x7d".toList rest ||
        startsWithL "=\x7b'true'\x7d".toList rest
      else false
    | none => false
  ariaHit || disabledScanGo s (s.length + 2) 0

/-- `has_disabled_variant`: any whitespace-separated class token with a
`disabled:` variant prefix. -/
def hasDisabledVariant (classContent : String) : Bool :=
  (splitWsStr classContent).any (fun cls => startsWithStr "disabled:" cls)

/-! ## `parser/class_extractor.rs` -/

/-- `types.rs` `ClassRegion` (NAPI object). -/
structure ClassRegion where
  content : String
  startLine : Nat
  contextBg : String
  inlineColor : Option String
  inlineBackgroundColor : Option String
  contextOverrideBg : Option String
  contextOverrideFg : Option String
  contextOverrideNoInherit : Option Bool
  ignored : Option Bool
  ignoreReason : Option String
  effectiveOpacity : Option Q
deriving DecidableEq, Repr

structure InlineStyleColors where
  color : Option String
  backgroundColor : Option String
deriving DecidableEq, Repr

/-- Brace-depth scan of `extract_inline_style_colors`: starting inside
`style=\x7b\x7b` at depth 2, returns the final cursor and depth (the
cursor is not advanced on the step where depth reaches zero). -/
def braceScanGo (s : List Char) : Nat → Nat → Nat → Nat × Nat
  | 0, depth, i => (i, depth)
  | fuel + 1, depth, i =>
    if i < s.length ∧ 0 < depth then
      let d := if chAt s i = chLBrace then depth + 1
        else if chAt s i = chRBrace then depth - 1 else depth
      if 0 < d then braceScanGo s fuel d (i + 1) else (i, d)
    else (i, depth)

/-- Unescaped-terminator search shared by the string skippers: first
position at or after `i` holding `q` not consumed by a backslash escape
(Rust advances two bytes on a backslash). -/
def skipQuotedBody (s : List Char) (q : Char) : Nat → Nat → Nat
  | 0, i => i
  | fuel + 1, i =>
    if i < s.length then
      if chAt s i = q then i
      else if chAt s i = chBackslash then skipQuotedBody s q fuel (i + 2)
      else skipQuotedBody s q fuel (i + 1)
    else i

/-- `extract_style_property`: find `<prop> : "<value>"` with a word
boundary before the property name. -/
def extractStylePropGo (s prop : List Char) : Nat → Nat → Option (List Char)
  | 0, _ => none
  | fuel + 1, i =>
    if i + prop.length < s.length then
      if 0 < i ∧ ((chAt s (i - 1)).isAlphanum = true ∨ chAt s (i - 1) = '_') then
        extractStylePropGo s prop fuel (i + 1)
      else if sliceL s i (i + prop.length) = prop then
        let j := i + prop.length + ((s.drop (i + prop.length)).takeWhile isAsciiWs).length
        if j < s.length ∧ chAt s j = ':' then
          let j2 := j + 1 + ((s.drop (j + 1)).takeWhile isAsciiWs).length
          if j2 < s.length ∧ (chAt s j2 = chSQuote ∨ chAt s j2 = chQuote) then
            let strEnd := skipQuotedBody s (chAt s j2) (s.length + 2) (j2 + 1)
            if strEnd < s.length then some (sliceL s (j2 + 1) strEnd)
            else extractStylePropGo s prop fuel (i + 1)
          else extractStylePropGo s prop fuel (i + 1)
        else extractStylePropGo s prop fuel (i + 1)
      else extractStylePropGo s prop fuel (i + 1)
    else none

def extractStyleProp (styleBody : List Char) (prop : String) : Option String :=
  (extractStylePropGo styleBody prop.toList (styleBody.length + 2) 0).map List.asString

/-- `extract_inline_style_colors`: locate `style=\x7b\x7b … \x7d\x7d`
by brace-depth matching and extract the quoted `color` /
`backgroundColor` values. -/
def extractInlineStyleColors (rawTag : String) : Option InlineStyleColors :=
  let s := rawTag.toList
  match findSubstrL s "style=\x7b\x7b".toList with
  | none => none
  | some styleStart =>
    let bodyStart := styleStart + 8
    let (e, dEnd) := braceScanGo s (s.length + 2) 2 bodyStart
    if dEnd ≠ 0 then none
    else
      let styleBody := sliceL s bodyStart e
      let color := extractStyleProp styleBody "color"
      let backgroundColor := extractStyleProp styleBody "backgroundColor"
      if color = none ∧ backgroundColor = none then none
      else some ⟨color, backgroundColor⟩

/-- `ClassExtractor::record`, split into the pure region construction;
the push onto the extractor's `Vec` is modelled at the orchestrator
level (`OrchState.regions`).  The Rust threshold constant is the `f32`
literal `0.999`; its rounding gap to `999/1000` is unobservable at the
dyadic opacities this development evaluates. -/
def recordRegion (content : String) (line : Nat) (rawTag : String)
    (contextBg : String) (contextOverride : Option ContextOverride)
    (ignoreReason : Option String) (effectiveOpacity : Option Q) : ClassRegion :=
  let inlineStyles := extractInlineStyleColors rawTag
  let opacity := effectiveOpacity.bind
    (fun o => if qBle ⟨999, 1000⟩ o then none else some o)
  { content := content
    startLine := line
    contextBg := contextBg
    inlineColor := inlineStyles.bind (·.color)
    inlineBackgroundColor := inlineStyles.bind (·.backgroundColor)
    contextOverrideBg := contextOverride.bind (·.bg)
    contextOverrideFg := contextOverride.bind (·.fg)
    contextOverrideNoInherit :=
      match contextOverride with
      | some ctx => if ctx.noInherit then some true else none
      | none => none
    ignored := if ignoreReason.isSome then some true else none
    ignoreReason := ignoreReason.map (fun r => if r = "" then "suppressed" else r)
    effectiveOpacity := opacity }

/-! ## `parser/tokenizer.rs` -/

/-- `build_line_offsets`: offset 0 plus the offset just past each
newline. -/
def newlinePositions : List Char → Nat → List Nat
  | [], _ => []
  | c :: rest, i =>
    if c = chNewline then (i + 1) :: newlinePositions rest (i + 1)
    else newlinePositions rest (i + 1)

def buildLineOffsets (s : List Char) : List Nat := 0 :: newlinePositions s 0

/-- `line_at_offset`: for the strictly increasing offset table produced
by `buildLineOffsets`, the Rust binary search (`Ok(i) ↦ i + 1`,
`Err(i) ↦ i`) returns the number of table entries `≤ offset`. -/
def lineAt (offsets : List Nat) (off : Nat) : Nat :=
  offsets.countP (fun o => o ≤ off)

/-- `is_tag_name_ch`. -/
def isTagNameCh (c : Char) : Bool :=
  c.isAlphanum || c = '.' || c = '-' || c = '_'

/-- `read_tag_name`: end position of the tag name starting at `start`. -/
def readTagNameEnd (s : List Char) (start : Nat) : Nat :=
  start + ((s.drop start).takeWhile isTagNameCh).length

/-- Cursor after `while i < len && s[i] != c { i += 1 }`. -/
def findCharFrom (s : List Char) (c : Char) : Nat → Nat → Nat
  | 0, i => i
  | fuel + 1, i =>
    if i < s.length then
      if chAt s i = c then i else findCharFrom s c fuel (i + 1)
    else i

/-- Cursor after `while i + 1 < len && !(s[i] = '*' && s[i+1] = '/')`. -/
def findStarSlash (s : List Char) : Nat → Nat → Nat
  | 0, i => i
  | fuel + 1, i =>
    if i + 1 < s.length then
      if chAt s i = '*' ∧ chAt s (i + 1) = '/' then i
      else findStarSlash s fuel (i + 1)
    else i

/-- Skip a string/template literal whose opening quote is at `i`,
with the trailing `if i < len { i += 1 }` of the tokenizer loops. -/
def skipQuoted (s : List Char) (q : Char) (i : Nat) : Nat :=
  let e := skipQuotedBody s q (s.length + 2) (i + 1)
  if e < s.length then e + 1 else e

/-- The `extract_balanced_parens` variant: the final increment past the
closing quote is unconditional there. -/
def skipQuotedPB (s : List Char) (q : Char) (i : Nat) : Nat :=
  skipQuotedBody s q (s.length + 2) (i + 1) + 1

/-- `find_unescaped`. -/
def findUnescapedGo (s : List Char) (target : Char) : Nat → Nat → Option Nat
  | 0, _ => none
  | fuel + 1, i =>
    if i < s.length then
      if chAt s i = chBackslash then findUnescapedGo s target fuel (i + 2)
      else if chAt s i = target then some i
      else findUnescapedGo s target fuel (i + 1)
    else none

def findUnescaped (s : List Char) (target : Char) (start : Nat) : Option Nat :=
  findUnescapedGo s target (s.length + 2) start

/-- `starts_with_at`. -/
def startsWithAtL (s : List Char) (at_ : Nat) (pat : List Char) : Bool :=
  startsWithL pat (s.drop at_)

/-- `skip_ws`. -/
def skipWsFrom (s : List Char) (i : Nat) : Nat :=
  i + ((s.drop i).takeWhile isAsciiWs).length

/-- `is_ident_char_before`. -/
def isIdentCharBefore (s : List Char) (i : Nat) : Bool :=
  if i = 0 then false
  else (chAt s (i - 1)).isAlphanum || chAt s (i - 1) = '_'

/-- Shared loop of `is_self_closing_tag` / `find_tag_close`: scan
forward tracking brace depth and skipping string/template literals; at
depth zero `/>` or `>` ends the tag.  Returns the tag-close offset
(just past `>` or `/>`); `s.length` when unterminated. -/
def findTagCloseGo (s : List Char) : Nat → Nat → Nat → Nat
  | 0, _, _ => s.length
  | fuel + 1, j, depth =>
    if j < s.length then
      let c := chAt s j
      if c = chLBrace then findTagCloseGo s fuel (j + 1) (depth + 1)
      else if c = chRBrace then findTagCloseGo s fuel (j + 1) (depth - 1)
      else if c = chQuote ∨ c = chSQuote ∨ c = chBacktick then
        findTagCloseGo s fuel (skipQuoted s c j) depth
      else if depth = 0 ∧ c = '/' ∧ j + 1 < s.length ∧ chAt s (j + 1) = '>' then j + 2
      else if depth = 0 ∧ c = '>' then j + 1
      else findTagCloseGo s fuel (j + 1) depth
    else s.length

def findTagClose (s : List Char) (fromPos : Nat) : Nat :=
  findTagCloseGo s (s.length + 2) fromPos 0

/-- `is_self_closing_tag`: same scan, `true` iff it ends on `/>`. -/
def isSelfClosingGo (s : List Char) : Nat → Nat → Nat → Bool
  | 0, _, _ => false
  | fuel + 1, j, depth =>
    if j < s.length then
      let c := chAt s j
      if c = chLBrace then isSelfClosingGo s fuel (j + 1) (depth + 1)
      else if c = chRBrace then isSelfClosingGo s fuel (j + 1) (depth - 1)
      else if c = chQuote ∨ c = chSQuote ∨ c = chBacktick then
        isSelfClosingGo s fuel (skipQuoted s c j) depth
      else if depth = 0 ∧ c = '/' ∧ j + 1 < s.length ∧ chAt s (j + 1) = '>' then true
      else if depth = 0 ∧ c = '>' then false
      else isSelfClosingGo s fuel (j + 1) depth
    else false

def isSelfClosingTag (s : List Char) (fromPos : Nat) : Bool :=
  isSelfClosingGo s (s.length + 2) fromPos 0

/-- `extract_balanced_parens` depth loop: position of the closing
parenthesis, skipping nested string/template literals. -/
def ebpGo (s : List Char) : Nat → Nat → Nat → Option Nat
  | 0, _, _ => none
  | fuel + 1, depth, i =>
    if i < s.length ∧ 0 < depth then
      let c := chAt s i
      if c = chSQuote ∨ c = chQuote then ebpGo s fuel depth (skipQuotedPB s c i)
      else if c = chBacktick then ebpGo s fuel depth (skipQuotedPB s c i)
      else
        let d := if c = '(' then depth + 1 else if c = ')' then depth - 1 else depth
        if 0 < d then ebpGo s fuel d (i + 1) else some i
    else if depth = 0 then some i else none

def extractBalancedParens (s : List Char) (openPos : Nat) :
    Option (List Char × Nat) :=
  if openPos < s.length ∧ chAt s openPos = '(' then
    (ebpGo s (s.length + 2) 1 (openPos + 1)).map (fun e => (sliceL s (openPos + 1) e, e))
  else none

/-- Inner balanced-brace skip of `strip_template_expressions`. -/
def skipBracesGo (s : List Char) : Nat → Nat → Nat → Nat
  | 0, _, i => i
  | fuel + 1, depth, i =>
    if i < s.length ∧ 0 < depth then
      let d := if chAt s i = chLBrace then depth + 1
        else if chAt s i = chRBrace then depth - 1 else depth
      skipBracesGo s fuel d (i + 1)
    else i

/-- `strip_template_expressions`: replace each `$\x7b…\x7d`
interpolation by a single space. -/
def stripTEGo (s : List Char) : Nat → Nat → List Char
  | 0, _ => []
  | fuel + 1, i =>
    if i < s.length then
      if i + 1 < s.length ∧ chAt s i = '$' ∧ chAt s (i + 1) = chLBrace then
        ' ' :: stripTEGo s fuel (skipBracesGo s (s.length + 2) 1 (i + 2))
      else chAt s i :: stripTEGo s fuel (i + 1)
    else []

def stripTemplateExpressions (s : List Char) : List Char :=
  stripTEGo s (s.length + 2) 0

/-- Events emitted by the tokenizer (`JsxVisitor` hooks). -/
inductive JsxEvent where
  | tagOpen (name : String) (selfClosing : Bool) (raw : String)
  | tagClose (name : String)
  | comment (content : String) (line : Nat)
  | classAttr (value : String) (line : Nat) (raw : String)
  | fileEnd
deriving DecidableEq, Repr

/-- One `className=` value-shape recognition attempt of
`scan_tag_attributes` at the `className=` occurrence `j`: the extracted
class text and the continuation cursor, or `none` when no recognized
value shape follows (the loop then resumes at `j + 10`).  In the Rust
chain a shape whose extraction fails falls through to the later shape
tests, but its lead byte makes them all fail, so falling through is
equivalent to `none` here. -/
def attrHit (s : List Char) (tagClose : Nat) (j : Nat) : Option (List Char × Nat) :=
  let eqEnd := j + 10
  let afterEq := skipWsFrom s eqEnd
  if afterEq < tagClose ∧ chAt s afterEq = chQuote then
    match findUnescaped s chQuote (afterEq + 1) with
    | some strEnd => some (sliceL s (afterEq + 1) strEnd, strEnd + 1)
    | none => none
  else if afterEq < tagClose ∧ chAt s afterEq = chLBrace then
    let inner := skipWsFrom s (afterEq + 1)
    if inner < tagClose ∧ (chAt s inner = chSQuote ∨ chAt s inner = chQuote) then
      match findUnescaped s (chAt s inner) (inner + 1) with
      | some strEnd => some (sliceL s (inner + 1) strEnd, strEnd + 1)
      | none => none
    else if inner < tagClose ∧ chAt s inner = chBacktick then
      match findUnescaped s chBacktick (inner + 1) with
      | some tEnd => some (stripTemplateExpressions (sliceL s (inner + 1) tEnd), tEnd + 1)
      | none => none
    else if inner + 3 ≤ s.length ∧ startsWithAtL s inner "cn(".toList then
      match extractBalancedParens s (inner + 2) with
      | some (content, e) => some (content, e + 1)
      | none => none
    else if inner + 5 ≤ s.length ∧ startsWithAtL s inner "clsx(".toList then
      match extractBalancedParens s (inner + 4) with
      | some (content, e) => some (content, e + 1)
      | none => none
    else none
  else none

/-- `scan_tag_attributes`: scan `[j, tagClose)` for `className=`
attribute values of the four recognized shapes. -/
def scanTagAttrsGo (s : List Char) (offsets : List Nat) (tagClose : Nat)
    (raw : String) : Nat → Nat → List JsxEvent
  | 0, _ => []
  | fuel + 1, j =>
    if j + 10 ≤ tagClose then
      if startsWithAtL s j "className=".toList then
        match attrHit s tagClose j with
        | some (content, j2) =>
          .classAttr content.asString (lineAt offsets j) raw ::
            scanTagAttrsGo s offsets tagClose raw fuel j2
        | none => scanTagAttrsGo s offsets tagClose raw fuel (j + 10)
      else scanTagAttrsGo s offsets tagClose raw fuel (j + 1)
    else []

/-- The standalone `cn(` / `clsx(` / `cva(` recognition plus the
default single-byte advance — the tail of the `scan_jsx` loop body. -/
def stepDefault (s : List Char) (offsets : List Nat) (i : Nat) :
    List JsxEvent × Nat :=
  if i + 3 ≤ s.length ∧ ¬ isIdentCharBefore s i then
    let fnLen : Option Nat :=
      if startsWithAtL s i "cn(".toList then some 2
      else if i + 5 ≤ s.length ∧ startsWithAtL s i "clsx(".toList then some 4
      else if i + 4 ≤ s.length ∧ startsWithAtL s i "cva(".toList then some 3
      else none
    match fnLen with
    | some fl =>
      match extractBalancedParens s (i + fl) with
      | some (content, e) =>
        ([.classAttr content.asString (lineAt offsets i) ""], e + 1)
      | none => ([], i + 1)
    | none => ([], i + 1)
  else ([], i + 1)

/-- One iteration of the `scan_jsx` loop at cursor `i < s.length`:
the events emitted and the next cursor.  `none` models the Rust panic
in the block-comment branch (`&source[comment_start + 2..content_end]`
with `comment_start + 2 > content_end`, reachable when a block-comment
opener sits within the last three bytes of the input). -/
def stepTok (s : List Char) (offsets : List Nat) (i : Nat) :
    Option (List JsxEvent × Nat) :=
  if i + 1 < s.length ∧ chAt s i = '/' ∧ chAt s (i + 1) = '/' then
    let e := findCharFrom s chNewline (s.length + 2) (i + 2)
    some ([.comment (sliceL s (i + 2) e).asString (lineAt offsets i)], e)
  else if i + 1 < s.length ∧ chAt s i = '/' ∧ chAt s (i + 1) = '*' then
    let j := findStarSlash s (s.length + 2) (i + 2)
    let j2 := if j + 1 < s.length then j + 2 else j
    let contentEnd := if 2 ≤ j2 then j2 - 2 else j2
    match rustSliceL s (i + 2) contentEnd with
    | some content => some ([.comment content.asString (lineAt offsets i)], j2)
    | none => none
  else if chAt s i = chQuote ∨ chAt s i = chSQuote then
    some ([], skipQuoted s (chAt s i) i)
  else if chAt s i = chBacktick then
    some ([], skipQuoted s chBacktick i)
  else if chAt s i = '<' ∧ i + 1 < s.length then
    if chAt s (i + 1) = '/' then
      let nameEnd := readTagNameEnd s (i + 2)
      let name := sliceL s (i + 2) nameEnd
      let evs : List JsxEvent := if name ≠ [] then [.tagClose name.asString] else []
      let j := findCharFrom s '>' (s.length + 2) nameEnd
      some (evs, if j < s.length then j + 1 else j)
    else if (chAt s (i + 1)).isAlpha then
      let nameEnd := readTagNameEnd s (i + 1)
      let name := sliceL s (i + 1) nameEnd
      if name ≠ [] then
        let tagClose := findTagClose s nameEnd
        let raw := (sliceL s i tagClose).asString
        let selfClosing := isSelfClosingTag s nameEnd
        some (.tagOpen name.asString selfClosing raw ::
          scanTagAttrsGo s offsets tagClose raw (s.length + 2) nameEnd, tagClose)
      else
        -- unreachable: an alphabetic character is a tag-name character,
        -- so the name has at least one character
        some (stepDefault s offsets i)
    else some (stepDefault s offsets i)
  else some (stepDefault s offsets i)

/-- The `scan_jsx` loop.  `fuel` is instantiated with `length + 1`:
each iteration advances the cursor by at least one byte
(`stepTok_mono`), so at most `length` iterations run before the
`i < length` guard fails. -/
def scanLoopTok (s : List Char) (offsets : List Nat) :
    Nat → Nat → Option (List JsxEvent)
  | 0, _ => some []
  | fuel + 1, i =>
    if i < s.length then
      match stepTok s offsets i with
      | none => none
      | some (evs, i2) => (scanLoopTok s offsets fuel i2).map (evs ++ ·)
    else some []

/-- `scan_jsx`: the full event stream for one file, ending in the
end-of-scan notification; `none` models the panic of claim C9. -/
def scanJsxL (s : List Char) : Option (List JsxEvent) :=
  (scanLoopTok s (buildLineOffsets s) (s.length + 1) 0).map (· ++ [.fileEnd])

def scanJsx (source : String) : Option (List JsxEvent) := scanJsxL source.toList

/-! ## `parser/mod.rs` — `ScanOrchestrator` and `scan_file`

`CurrentColorResolver` (`current_color_resolver.rs`) also observes tag
events, but its stack is write-only inside `scan_file`: no `ClassRegion`
field reads `current_color()`, so it is omitted from the state. -/

/-- `ScanOrchestrator` state. -/
structure OrchState where
  ct : CtState
  ap : ApState
  regions : List ClassRegion
  preTagOpenBg : Option String
deriving DecidableEq, Repr

def initOrch (containerConfig : List (String × String)) (defaultBg : String) :
    OrchState :=
  ⟨⟨containerConfig, defaultBg, [], none⟩, ⟨none, none⟩, [], none⟩

/-- `ScanOrchestrator::on_tag_open`: resolve the pending block override,
capture the pre-update background, then update the context tracker. -/
def orchOnTagOpen (st : OrchState) (tagName : String) (isSelfClosing : Bool)
    (rawTag : String) : OrchState :=
  let ct1 := ctResolvePendingBlock st.ct tagName isSelfClosing
  let pre := some (ctCurrentBg ct1)
  let ct2 := ctOnTagOpen ct1 tagName isSelfClosing rawTag
  { st with ct := ct2, preTagOpenBg := pre }

def orchOnTagClose (st : OrchState) (tagName : String) : OrchState :=
  { st with ct := ctOnTagClose st.ct tagName }

def orchOnComment (st : OrchState) (content : String) : OrchState :=
  { st with ct := ctOnComment st.ct content, ap := apOnComment st.ap content }

/-- The region built by `ScanOrchestrator::on_class_attribute`.

The Rust call of `ClassExtractor::record` at
`src/native/src/parser/mod.rs:101-108` passes six arguments to the
seven-parameter method — the `effective_opacity` argument is missing,
so the crate does not type-check (claim C3).  The omission is modelled
by supplying `none`: no opacity value reaches the region builder. -/
def orchBuiltRegion (st : OrchState) (value : String) (line : Nat)
    (rawTag : String) : ClassRegion :=
  let contextBg :=
    if rawTag ≠ "" then (st.preTagOpenBg).getD (ctCurrentBg st.ct)
    else ctCurrentBg st.ct
  let ignoreReason := st.ap.pendingIgnore
  let isDisabled := isDisabledTag rawTag || hasDisabledVariant value
  let finalIgnoreReason :=
    if isDisabled ∧ ignoreReason = none then
      some "disabled element (WCAG SC 1.4.3 exemption)"
    else ignoreReason
  recordRegion value line rawTag contextBg st.ap.pendingContext finalIgnoreReason none

/-- `ScanOrchestrator::on_class_attribute`: build the region, consume
both pending annotation slots, and consume the pre-open capture when
the event carries a non-empty raw tag. -/
def orchOnClassAttr (st : OrchState) (value : String) (line : Nat)
    (rawTag : String) : OrchState :=
  { st with
    regions := st.regions ++ [orchBuiltRegion st value line rawTag]
    ap := ⟨none, none⟩
    preTagOpenBg := if rawTag ≠ "" then none else st.preTagOpenBg }

/-- Dispatch of one tokenizer event to the orchestrator. -/
def orchStep (st : OrchState) (e : JsxEvent) : OrchState :=
  match e with
  | .tagOpen name selfClosing raw => orchOnTagOpen st name selfClosing raw
  | .tagClose name => orchOnTagClose st name
  | .comment content _line => orchOnComment st content
  | .classAttr value line raw => orchOnClassAttr st value line raw
  | .fileEnd => st

/-- `scan_file`: run the tokenizer and fold the orchestrator over the
event stream; `none` models the tokenizer panic (claim C9). -/
def scanFile (source : String) (containerConfig : List (String × String))
    (defaultBg : String) : Option (List ClassRegion) :=
  (scanJsx source).map
    (fun evs => (evs.foldl orchStep (initOrch containerConfig defaultBg)).regions)

/-! ## `engine.rs` and `types.rs` -/

structure FileInput where
  path : String
  content : String
deriving DecidableEq, Repr

structure ContainerEntry where
  component : String
  bgClass : String
deriving DecidableEq, Repr

structure ExtractOptions where
  fileContents : List FileInput
  containerConfig : List ContainerEntry
  defaultBg : String
deriving DecidableEq, Repr

structure PreExtractedFile where
  path : String
  regions : List ClassRegion
deriving DecidableEq, Repr

/-- `extract_and_scan`: Rayon's `par_iter().map(..).collect()` over an
indexed parallel iterator is deterministic and order-preserving, each
closure touches only its own file plus the shared immutable
configuration, and a panic in any task propagates to the caller of
`collect`; its semantics is therefore the order-preserving map below,
with `none` propagating a per-file panic. -/
def extractAndScan (options : ExtractOptions) : Option (List PreExtractedFile) :=
  let containerConfig :=
    options.containerConfig.map (fun e => (e.component, e.bgClass))
  options.fileContents.mapM
    (fun f =>
      (scanFile f.content containerConfig options.defaultBg).map
        (fun regions => ⟨f.path, regions⟩))

/-- Modelled from the spec (claim C10's reference implementation): a
plain sequential map of `scan_file` over the file collection, one
output entry per input file, in input order. -/
def extractAndScanSeqGo (containerConfig : List (String × String))
    (defaultBg : String) : List FileInput → Option (List PreExtractedFile)
  | [] => some []
  | f :: rest =>
    match scanFile f.content containerConfig defaultBg,
        extractAndScanSeqGo containerConfig defaultBg rest with
    | some regions, some tail => some (⟨f.path, regions⟩ :: tail)
    | _, _ => none

def extractAndScanSeq (options : ExtractOptions) : Option (List PreExtractedFile) :=
  extractAndScanSeqGo
    (options.containerConfig.map (fun e => (e.component, e.bgClass)))
    options.defaultBg options.fileContents

/-- The class-attribute events of an event stream, in order. -/
def classEvents (evs : List JsxEvent) : List (String × Nat × String) :=
  evs.filterMap (fun e => match e with
    | .classAttr v line raw => some (v, line, raw)
    | _ => none)

/-- The 1-based lines of the class-attribute events, in order. -/
def classLines (evs : List JsxEvent) : List Nat :=
  (classEvents evs).map (fun t => t.2.1)

/-! ## Helper lemmas -/

theorem stripPrefixL_append (p s : List Char) : stripPrefixL p (p ++ s) = some s := by
  simp [stripPrefixL, List.isPrefixOf_iff_prefix, List.prefix_append, List.drop_left]

theorem stripPrefixL_single_none {c : Char} {s : List Char}
    (h : s.head? ≠ some c) : stripPrefixL [c] s = none := by
  cases s with
  | nil => simp [stripPrefixL, List.isPrefixOf]
  | cons d rest =>
    simp only [List.head?] at h
    have hdc : (c == d) = false := by
      cases hcd : c == d
      · rfl
      · exact absurd (by simp [(beq_iff_eq.mp hcd).symm]) h
    simp [stripPrefixL, List.isPrefixOf, hdc]

theorem parseU32L_not_bracket {s : List Char} {n : Nat}
    (h : parseU32L s = some n) : s.head? ≠ some '[' := by
  cases s with
  | nil => simp
  | cons c rest =>
    intro hc
    simp only [List.head?, Option.some.injEq] at hc
    subst hc
    simp only [parseU32L, if_neg (by decide : ¬ ('[' = '+'))] at h
    split at h
    · rename_i hall
      have : ('[' :: rest).all Char.isDigit := hall.2
      simp [List.all_cons] at this
    · exact Option.noConfusion h

theorem stripPrefixL_none_of_not_prefix {p s : List Char}
    (h : startsWithL p s = false) : stripPrefixL p s = none := by
  simp [startsWithL] at h
  simp [stripPrefixL, h]

/-- The numeric (non-bracket) path of `parse_opacity_class`. -/
theorem parseOpacityClassL_numeric {suffix : List Char} {n : Nat}
    (h : parseU32L suffix = some n) :
    parseOpacityClassL ("opacity-".toList ++ suffix) =
      if 100 < n then none else some (qDivPos (qOfNat n) 100) := by
  have hne : suffix ≠ [] := by
    intro he
    subst he
    simp [parseU32L] at h
  have hbr : stripPrefixL ['['] suffix = none :=
    stripPrefixL_single_none (parseU32L_not_bracket h)
  have hsp := stripPrefixL_append "opacity-".toList suffix
  unfold parseOpacityClassL
  rw [hsp]
  simp [hne, hbr, h, gt_iff_lt]

/-- C8 counterexample: the arbitrary-value paths are not clamped, so
`parse_opacity_class` can return values outside the claimed 0.0–1.0
range (`opacity-[2]` ↦ 2, `opacity-[150%]` ↦ 1.5). -/
theorem claim8_counterexample :
    parseOpacityClass "opacity-[2]" = some ⟨2, 1⟩ ∧ ¬ qLe ⟨2, 1⟩ qOne
    ∧ parseOpacityClass "opacity-[150%]" = some ⟨150, 100⟩
    ∧ ¬ qLe ⟨150, 100⟩ qOne ∧ qEqv ⟨150, 100⟩ ⟨3, 2⟩ := by
  refine ⟨by decide, by decide, by decide, by decide, by decide⟩

/-- C8 (amended): `parse_opacity_class` returns nothing for tokens
without the `opacity-` prefix (including `text-opacity-*`); a numeric
suffix `0`–`100` yields that number divided by 100, which always lies
in 0.0–1.0, and numeric values above 100 are rejected; a bracketed
arbitrary value with a trailing `%` yields the percentage divided by
100 and otherwise the bracket content parsed as a literal fraction —
the bracketed paths are not clamped to 0.0–1.0. -/
theorem claim8_opacity_parse :
    (∀ cls : String, startsWithL "opacity-".toList cls.toList = false →
      parseOpacityClass cls = none)
    ∧ (∀ (suffix : List Char) (n : Nat), parseU32L suffix = some n → n ≤ 100 →
      parseOpacityClassL ("opacity-".toList ++ suffix) = some (qDivPos (qOfNat n) 100)
        ∧ qLe ⟨0, 1⟩ (qDivPos (qOfNat n) 100) ∧ qLe (qDivPos (qOfNat n) 100) qOne)
    ∧ (∀ (suffix : List Char) (n : Nat), parseU32L suffix = some n → 100 < n →
      parseOpacityClassL ("opacity-".toList ++ suffix) = none)
    ∧ parseOpacityClass "opacity-[50%]" = some ⟨50, 100⟩ ∧ qEqv ⟨50, 100⟩ ⟨1, 2⟩
    ∧ parseOpacityClass "opacity-[0%]" = some ⟨0, 100⟩
    ∧ parseOpacityClass "opacity-[.33]" = some ⟨33, 100⟩
    ∧ parseOpacityClass "opacity-[0.33]" = some ⟨33, 100⟩
    ∧ parseOpacityClass "text-opacity-50" = none
    ∧ parseOpacityClass "opacity" = none := by
  refine ⟨?_, ?_, ?_, by decide, by decide, by decide, by decide, by decide,
    by decide, by decide⟩
  · intro cls h
    have hn := stripPrefixL_none_of_not_prefix h
    unfold parseOpacityClass parseOpacityClassL
    rw [hn]
  · intro suffix n h hle
    refine ⟨?_, ?_, ?_⟩
    · rw [parseOpacityClassL_numeric h, if_neg (by omega)]
    · simp [qLe, qDivPos, qOfNat]
    · simp [qLe, qDivPos, qOfNat, qOne]
      omega
  · intro suffix n h hgt
    rw [parseOpacityClassL_numeric h, if_pos hgt]

/-- Witness for `claim8_opacity_parse` at concrete tokens. -/
theorem claim8_witness :
    parseOpacityClass "text-opacity-50" = none
    ∧ parseOpacityClassL ("opacity-".toList ++ "50".toList) =
        some (qDivPos (qOfNat 50) 100)
    ∧ parseOpacityClassL ("opacity-".toList ++ "150".toList) = none :=
  ⟨claim8_opacity_parse.1 "text-opacity-50" (by decide),
   (claim8_opacity_parse.2.1 "50".toList 50 (by decide) (by norm_num)).1,
   claim8_opacity_parse.2.2.1 "150".toList 150 (by decide) (by norm_num)⟩

/-- Closing a tag whose entry was just pushed pops exactly that entry
(`ContextTracker::on_tag_close`, matched-top case). -/
theorem ctOnTagClose_push (st : CtState) (tag bg : String) (ann : Bool) (cum : Q) :
    ctOnTagClose { st with stack := ⟨tag, bg, ann, cum⟩ :: st.stack } tag = st := by
  simp [ctOnTagClose, List.findIdx?_cons]

/-- C4: in the background/opacity context tracker, opening a
non-self-closing tag whose raw text carries a recognized opacity
utility with multiplier `m` makes the current cumulative opacity equal
to the parent cumulative opacity times `m`; closing that tag restores
the stack — and hence the parent's cumulative value — exactly; with an
empty stack the current opacity is 1. -/
theorem claim4_opacity_compose :
    (∀ (st : CtState) (tag raw : String) (m : Q),
      findOpacityInRawTag raw = some m →
        ctCurrentOpacity (ctOnTagOpen st tag false raw) = qMul (ctCurrentOpacity st) m
        ∧ ctOnTagClose (ctOnTagOpen st tag false raw) tag = st
        ∧ ctCurrentOpacity (ctOnTagClose (ctOnTagOpen st tag false raw) tag) =
            ctCurrentOpacity st)
    ∧ (∀ st : CtState, st.stack = [] → ctCurrentOpacity st = qOne) := by
  constructor
  · intro st tag raw m hm
    simp only [ctOnTagOpen, hm, Option.getD_some, Option.isSome_some,
      Bool.false_eq_true, if_false]
    cases hc : configGet st.containerConfig tag with
    | some configBg =>
      simp only [hc]
      exact ⟨rfl, ctOnTagClose_push .., by rw [ctOnTagClose_push]⟩
    | none =>
      simp only [hc]
      cases hb : findExplicitBgInRawTag raw with
      | some bg =>
        simp only [hb]
        exact ⟨rfl, ctOnTagClose_push .., by rw [ctOnTagClose_push]⟩
      | none =>
        simp only [hb, reduceIte]
        exact ⟨rfl, ctOnTagClose_push .., by rw [ctOnTagClose_push]⟩
  · intro st h
    simp [ctCurrentOpacity, h]

/-- Witness for `claim4_opacity_compose`: two nested `opacity-50`
ancestors; the inner cumulative opacity is the product, whose value is
0.25, and closing the inner tag restores 0.5. -/
theorem claim4_witness :
    findOpacityInRawTag "<span className=\"opacity-50\">" = some ⟨50, 100⟩
    ∧ ctCurrentOpacity
        (ctOnTagOpen
          (ctOnTagOpen ⟨[], "bg-background", [], none⟩ "div" false
            "<div className=\"opacity-50\">")
          "span" false "<span className=\"opacity-50\">")
      = qMul
          (ctCurrentOpacity
            (ctOnTagOpen ⟨[], "bg-background", [], none⟩ "div" false
              "<div className=\"opacity-50\">")) ⟨50, 100⟩
    ∧ qEqv
        (ctCurrentOpacity
          (ctOnTagOpen
            (ctOnTagOpen ⟨[], "bg-background", [], none⟩ "div" false
              "<div className=\"opacity-50\">")
            "span" false "<span className=\"opacity-50\">")) ⟨1, 4⟩
    ∧ ctCurrentOpacity
        (ctOnTagClose
          (ctOnTagOpen
            (ctOnTagOpen ⟨[], "bg-background", [], none⟩ "div" false
              "<div className=\"opacity-50\">")
            "span" false "<span className=\"opacity-50\">") "span")
      = ctCurrentOpacity
          (ctOnTagOpen ⟨[], "bg-background", [], none⟩ "div" false
            "<div className=\"opacity-50\">") := by
  have h := claim4_opacity_compose.1
    (ctOnTagOpen ⟨[], "bg-background", [], none⟩ "div" false
      "<div className=\"opacity-50\">")
    "span" "<span className=\"opacity-50\">" ⟨50, 100⟩ (by decide)
  exact ⟨by decide, h.1, by decide, h.2.2⟩

/-- C6 counterexample: a self-closing tag does consume (clear without
applying) a pending `@a11y-context-block` override — `resolve_pending_block`
calls `Option::take` before testing `is_self_closing` — so a following
non-self-closing element no longer receives the block background. -/
theorem claim6_counterexample :
    (ctOnComment ⟨[], "bg-background", [], none⟩
        " @a11y-context-block bg:bg-x").pendingBlockOverride = some "bg-x"
    ∧ (ctResolvePendingBlock
        (ctOnComment ⟨[], "bg-background", [], none⟩ " @a11y-context-block bg:bg-x")
        "br" true).pendingBlockOverride = none
    ∧ ctCurrentBg
        (ctOnTagOpen
          (ctResolvePendingBlock
            (ctResolvePendingBlock
              (ctOnComment ⟨[], "bg-background", [], none⟩
                " @a11y-context-block bg:bg-x")
              "br" true)
            "div" false)
          "div" false "<div>") = "bg-background" := by
  refine ⟨by decide, by decide, by decide⟩

/-- C6 (amended): a self-closing opening tag never pushes an entry onto
the background/opacity context stack and leaves the background seen by
subsequent siblings unchanged; however, it does consume a pending
`@a11y-context-block` override (clearing the slot without applying
it). -/
theorem claim6_self_closing_frame :
    ∀ (st : OrchState) (tag raw : String),
      ((orchStep st (.tagOpen tag true raw)).ct).stack = st.ct.stack
      ∧ ctCurrentBg ((orchStep st (.tagOpen tag true raw)).ct) = ctCurrentBg st.ct
      ∧ ((orchStep st (.tagOpen tag true raw)).ct).pendingBlockOverride = none
      ∧ ((orchStep st (.tagOpen tag true raw)).ct).defaultBg = st.ct.defaultBg
      ∧ (orchStep st (.tagOpen tag true raw)).ap = st.ap
      ∧ (orchStep st (.tagOpen tag true raw)).regions = st.regions := by
  intro st tag raw
  cases hp : st.ct.pendingBlockOverride <;>
    simp [orchStep, orchOnTagOpen, ctOnTagOpen, ctResolvePendingBlock, hp, ctCurrentBg]

/-- C7: on a class-attribute event whose element carries a disabled
signal (from the raw tag's `disabled`/`aria-disabled` attributes or a
`disabled:` variant in the class text), the built region is suppressed:
with no explicit pending reason it gets the synthesized
disabled-element default; with an explicit pending `a11y-ignore` reason
it keeps that explicit reason (normalized to `"suppressed"` only when
empty), never the synthesized default. -/
theorem claim7_disabled_precedence :
    ∀ (st : OrchState) (v : String) (line : Nat) (raw : String),
      (isDisabledTag raw || hasDisabledVariant v) = true →
      ((st.ap.pendingIgnore = none →
          (orchBuiltRegion st v line raw).ignoreReason =
            some "disabled element (WCAG SC 1.4.3 exemption)"
          ∧ (orchBuiltRegion st v line raw).ignored = some true)
      ∧ (∀ r : String, st.ap.pendingIgnore = some r →
          (orchBuiltRegion st v line raw).ignoreReason =
            some (if r = "" then "suppressed" else r)
          ∧ (orchBuiltRegion st v line raw).ignored = some true)) := by
  intro st v line raw hdis
  constructor
  · intro hp
    simp [orchBuiltRegion, recordRegion, hdis, hp]
  · intro r hp
    simp [orchBuiltRegion, recordRegion, hdis, hp]

/-- Witness for `claim7_disabled_precedence`: a disabled button with an
explicit pending reason keeps it; with no pending reason it gets the
synthesized default. -/
theorem claim7_witness :
    (isDisabledTag "<button disabled className=\"text-gray-400\">"
        || hasDisabledVariant "text-gray-400") = true
    ∧ (orchBuiltRegion
        ⟨⟨[], "bg-background", [], none⟩, ⟨none, some "custom reason"⟩, [], none⟩
        "text-gray-400" 1
        "<button disabled className=\"text-gray-400\">").ignoreReason =
      some "custom reason"
    ∧ (orchBuiltRegion
        ⟨⟨[], "bg-background", [], none⟩, ⟨none, none⟩, [], none⟩
        "text-gray-400" 1
        "<button disabled className=\"text-gray-400\">").ignoreReason =
      some "disabled element (WCAG SC 1.4.3 exemption)" := by
  have h1 := (claim7_disabled_precedence
    ⟨⟨[], "bg-background", [], none⟩, ⟨none, some "custom reason"⟩, [], none⟩
    "text-gray-400" 1 "<button disabled className=\"text-gray-400\">"
    (by decide)).2 "custom reason" rfl
  have h2 := (claim7_disabled_precedence
    ⟨⟨[], "bg-background", [], none⟩, ⟨none, none⟩, [], none⟩
    "text-gray-400" 1 "<button disabled className=\"text-gray-400\">"
    (by decide)).1 rfl
  refine ⟨by decide, ?_, h2.1⟩
  rw [h1.1]
  decide

/-- C2: the orchestrator captures, on every opening tag, the background
current after resolving any pending block override and before the tag's
own update; a class-attribute event with a non-empty raw tag uses that
captured background and clears the capture (one-shot), a later such
event with no capture left uses the tracker's live background, and an
event from a free-standing builder call (empty raw tag) uses the
tracker's live background without touching the capture.  Concretely, an
element's own class list sees its parent's background, not the one the
element itself establishes. -/
theorem claim2_context_bg_capture :
    (∀ (st : OrchState) (tag : String) (sc : Bool) (raw : String),
      (orchStep st (.tagOpen tag sc raw)).preTagOpenBg =
        some (ctCurrentBg (ctResolvePendingBlock st.ct tag sc)))
    ∧ (∀ (st : OrchState) (v : String) (line : Nat) (raw b : String),
      raw ≠ "" → st.preTagOpenBg = some b →
        (orchStep st (.classAttr v line raw)).regions =
          st.regions ++ [orchBuiltRegion st v line raw]
        ∧ (orchBuiltRegion st v line raw).contextBg = b
        ∧ (orchStep st (.classAttr v line raw)).preTagOpenBg = none)
    ∧ (∀ (st : OrchState) (v : String) (line : Nat) (raw : String),
      raw ≠ "" → st.preTagOpenBg = none →
        (orchBuiltRegion st v line raw).contextBg = ctCurrentBg st.ct)
    ∧ (∀ (st : OrchState) (v : String) (line : Nat),
      (orchBuiltRegion st v line "").contextBg = ctCurrentBg st.ct
      ∧ (orchStep st (.classAttr v line "")).preTagOpenBg = st.preTagOpenBg)
    ∧ (scanFile "<div className=\"bg-red-500\"><span className=\"text-white\">x</span></div>"
        [] "bg-background").map (·.map (·.contextBg)) =
      some ["bg-background", "bg-red-500"] := by
  refine ⟨?_, ?_, ?_, ?_, by decide⟩
  · intro st tag sc raw
    rfl
  · intro st v line raw b hraw hb
    refine ⟨rfl, ?_, ?_⟩
    · simp [orchBuiltRegion, recordRegion, hraw, hb]
    · simp [orchStep, orchOnClassAttr, hraw]
  · intro st v line raw hraw hb
    simp [orchBuiltRegion, recordRegion, hraw, hb]
  · intro st v line
    exact ⟨by simp [orchBuiltRegion, recordRegion], by simp [orchStep, orchOnClassAttr]⟩

/-- Witness for `claim2_context_bg_capture` at a concrete state with a
captured pre-open background. -/
theorem claim2_witness :
    (orchBuiltRegion
        ⟨⟨[], "bg-background", [⟨"div", "bg-red-500", false, qOne⟩], none⟩,
          ⟨none, none⟩, [], some "bg-background"⟩
        "bg-red-500" 1 "<div className=\"bg-red-500\">").contextBg = "bg-background"
    ∧ (orchStep
        ⟨⟨[], "bg-background", [⟨"div", "bg-red-500", false, qOne⟩], none⟩,
          ⟨none, none⟩, [], some "bg-background"⟩
        (.classAttr "bg-red-500" 1 "<div className=\"bg-red-500\">")).preTagOpenBg =
      none := by
  have h := claim2_context_bg_capture.2.1
    ⟨⟨[], "bg-background", [⟨"div", "bg-red-500", false, qOne⟩], none⟩,
      ⟨none, none⟩, [], some "bg-background"⟩
    "bg-red-500" 1 "<div className=\"bg-red-500\">" "bg-background"
    (by decide) rfl
  exact ⟨h.2.1, h.2.2⟩

/-- C5: the pending `@a11y-context` override and pending `a11y-ignore`
reason are one-shot.  Every class-attribute event clears both slots; a
class-attribute event finding both slots empty (and no disabled signal)
produces a region with no override and no suppression; a newer valid
annotation of the same kind overwrites any unconsumed older one,
whatever it was; tag-open, tag-close and end-of-file events leave the
slots untouched, so unconsumed slots persist across intervening tags;
and in a concrete two-element scan the single annotation decorates only
the first region. -/
theorem claim5_one_shot :
    (∀ (st : OrchState) (v : String) (line : Nat) (raw : String),
      (orchStep st (.classAttr v line raw)).ap = ⟨none, none⟩)
    ∧ (∀ (st : OrchState) (v : String) (line : Nat) (raw : String),
      st.ap.pendingContext = none → st.ap.pendingIgnore = none →
      (isDisabledTag raw || hasDisabledVariant v) = false →
        (orchBuiltRegion st v line raw).contextOverrideBg = none
        ∧ (orchBuiltRegion st v line raw).contextOverrideFg = none
        ∧ (orchBuiltRegion st v line raw).contextOverrideNoInherit = none
        ∧ (orchBuiltRegion st v line raw).ignored = none
        ∧ (orchBuiltRegion st v line raw).ignoreReason = none)
    ∧ (∀ (st : ApState) (content body : String) (ctx : ContextOverride),
      startsWithStr "@a11y-context-block" (rustTrim content) = false →
      stripPrefixStr "@a11y-context" (rustTrim content) = some body →
      parseContextParams body = some ctx →
        (apOnComment st content).pendingContext = some ctx
        ∧ (apOnComment st content).pendingIgnore = st.pendingIgnore)
    ∧ (∀ (st : ApState) (content rest : String),
      startsWithStr "@a11y-context-block" (rustTrim content) = false →
      stripPrefixStr "@a11y-context" (rustTrim content) = none →
      stripPrefixStr "a11y-ignore" (rustTrim content) = some rest →
        (apOnComment st content).pendingIgnore =
          some (match stripPrefixStr ":" rest with
            | some afterColon => rustTrim afterColon
            | none => "")
        ∧ (apOnComment st content).pendingContext = st.pendingContext)
    ∧ (∀ (st : OrchState) (tag : String) (sc : Bool) (raw : String),
      (orchStep st (.tagOpen tag sc raw)).ap = st.ap
      ∧ (orchStep st (.tagClose tag)).ap = st.ap
      ∧ (orchStep st .fileEnd).ap = st.ap)
    ∧ (scanFile
        "// @a11y-context bg:#09090b\n<div className=\"text-white\">x</div>\n<div className=\"text-gray\">y</div>"
        [] "bg-background").map (·.map (·.contextOverrideBg)) =
      some [some "#09090b", none]
    ∧ (scanFile "// a11y-ignore\n<div className=\"text-white\">x</div>\n<div className=\"text-b\">y</div>"
        [] "bg-background").map (·.map (fun r => (r.ignored, r.ignoreReason))) =
      some [(some true, some "suppressed"), (none, none)] := by
  refine ⟨?_, ?_, ?_, ?_, ?_, by decide, by decide⟩
  · intro st v line raw
    rfl
  · intro st v line raw h1 h2 h3
    simp [orchBuiltRegion, recordRegion, h1, h2, h3]
  · intro st content body ctx hblock hstrip hparse
    simp [apOnComment, hblock, hstrip, hparse]
  · intro st content rest hblock hctx hignore
    simp [apOnComment, hblock, hctx, hignore]
  · intro st tag sc raw
    exact ⟨rfl, rfl, rfl⟩

/-- Witness for `claim5_one_shot` at a concrete annotation comment and
a concrete post-consumption state. -/
theorem claim5_witness :
    (apOnComment ⟨some ⟨some "#111", none, false⟩, none⟩
        " @a11y-context bg:#222").pendingContext = some ⟨some "#222", none, false⟩
    ∧ (orchBuiltRegion ⟨⟨[], "bg-background", [], none⟩, ⟨none, none⟩, [], none⟩
        "text-gray" 3 "<div className=\"text-gray\">").contextOverrideBg = none
    ∧ (orchBuiltRegion ⟨⟨[], "bg-background", [], none⟩, ⟨none, none⟩, [], none⟩
        "text-gray" 3 "<div className=\"text-gray\">").ignoreReason = none := by
  have h3 := claim5_one_shot.2.2.1 ⟨some ⟨some "#111", none, false⟩, none⟩
    " @a11y-context bg:#222" " bg:#222" ⟨some "#222", none, false⟩
    (by decide) (by decide) (by decide)
  have h2 := claim5_one_shot.2.1 ⟨⟨[], "bg-background", [], none⟩, ⟨none, none⟩, [], none⟩
    "text-gray" 3 "<div className=\"text-gray\">" rfl rfl (by decide)
  exact ⟨h3.1, h2.1, h2.2.2.2.2⟩

/-- C3 (code bug): the orchestrator never delivers the context
tracker's cumulative opacity to the region builder — the Rust call of
`ClassExtractor::record` in `ScanOrchestrator::on_class_attribute`
passes six arguments to the seven-parameter method, omitting
`effective_opacity` (the crate does not type-check; the omission is
modelled as passing `none`).  Hence every built region records no
opacity; in the nested `opacity-50` scenario all three regions carry
`none` although the tracker's cumulative opacity at the innermost
class-attribute event is 0.25, the value the region builder — whose
strictly-below-0.999 recording rule is stated last — should have
received. -/
theorem claim3_opacity_not_delegated :
    (∀ (st : OrchState) (v : String) (line : Nat) (raw : String),
      (orchBuiltRegion st v line raw).effectiveOpacity = none)
    ∧ (scanFile
        "<div className=\"opacity-50\"><span className=\"opacity-50\"><p className=\"text-white\">x</p></span></div>"
        [] "bg-background").map (·.map (·.effectiveOpacity)) =
      some [none, none, none]
    ∧ qEqv
        (ctCurrentOpacity
          ((((scanJsx
              "<div className=\"opacity-50\"><span className=\"opacity-50\"><p className=\"text-white\">x</p></span></div>").getD
                []).take 5).foldl orchStep (initOrch [] "bg-background")).ct)
        ⟨1, 4⟩
    ∧ (∀ o : Q,
      (recordRegion "text-white" 1 "<p>" "bg-background" none none
          (some o)).effectiveOpacity =
        if qBle ⟨999, 1000⟩ o then none else some o) := by
  refine ⟨fun st v line raw => rfl, by decide, by decide, fun o => rfl⟩

/-- C9 (code bug): the scanner panics on some malformed inputs.  In the
block-comment branch the comment text is sliced as
`&source[comment_start + 2..content_end]`; when the `/ *` opener sits
within the last three bytes of the input, `content_end` falls below
`comment_start + 2` and the slice panics — `"/*"` is the smallest such
input (modelled by `none`).  Other malformed inputs degrade gracefully:
an unterminated tag extends to the end of input and still yields its
class-attribute event, and an unbalanced builder-call parenthesis
yields no event rather than a failure. -/
theorem claim9_scanner_panics :
    scanJsx "/*" = none
    ∧ scanJsx "a/*xy" = none
    ∧ scanJsx "<div className=\"a\"" =
      some [.tagOpen "div" false "<div className=\"a\"",
        .classAttr "a" 1 "<div className=\"a\"", .fileEnd]
    ∧ scanJsx "x = cn(\"a\"" = some [.fileEnd] := by
  refine ⟨by decide, by decide, by decide, by decide⟩

/-- C10 counterexample: with a file on which the scanner panics (the C9
block-comment slice bug), `extract_and_scan` returns no output entry at
all, so "exactly one output entry per input file" fails for that
batch. -/
theorem claim10_counterexample :
    extractAndScan ⟨[⟨"a.tsx", "/*"⟩], [], "bg-background"⟩ = none := by
  decide

/-- C10 (amended): `extract_and_scan` is equivalent to a sequential map
of `scan_file` over the input file collection, and on every batch where
no file triggers the C9 scanner panic it returns exactly one output
entry per input file, in input order, each carrying that file's path
and the region list computed from that file's content alone together
with the shared container configuration and default background — never
depending on any other file in the batch. -/
theorem claim10_engine_refinement :
    (∀ options : ExtractOptions, extractAndScan options = extractAndScanSeq options)
    ∧ (∀ (options : ExtractOptions) (files : List PreExtractedFile),
      extractAndScan options = some files →
        files.length = options.fileContents.length
        ∧ ∀ (k : Nat) (hk : k < files.length) (hk2 : k < options.fileContents.length),
          (files.get ⟨k, hk⟩).path = (options.fileContents.get ⟨k, hk2⟩).path
          ∧ some (files.get ⟨k, hk⟩).regions =
            scanFile (options.fileContents.get ⟨k, hk2⟩).content
              (options.containerConfig.map (fun e => (e.component, e.bgClass)))
              options.defaultBg) := by
  constructor
  · intro options
    unfold extractAndScan extractAndScanSeq
    generalize options.containerConfig.map (fun e => (e.component, e.bgClass)) = cfg
    induction options.fileContents with
    | nil => rfl
    | cons f rest ih =>
      simp only [List.mapM_cons, extractAndScanSeqGo]
      rw [← ih]
      cases hf : scanFile f.content cfg options.defaultBg with
      | none => rfl
      | some regions =>
        cases hr : rest.mapM (fun f =>
            (scanFile f.content cfg options.defaultBg).map
              (fun regions => (⟨f.path, regions⟩ : PreExtractedFile))) with
        | none => rfl
        | some tail => rfl
  · intro options files h
    unfold extractAndScan at h
    revert files
    generalize options.containerConfig.map (fun e => (e.component, e.bgClass)) = cfg
    induction options.fileContents with
    | nil =>
      intro files h
      simp only [List.mapM_nil, pure, Option.some.injEq] at h
      subst h
      exact ⟨rfl, fun k hk hk2 => absurd hk (by simp)⟩
    | cons f rest ih =>
      intro files h
      simp only [List.mapM_cons] at h
      cases hf : scanFile f.content cfg options.defaultBg with
      | none => rw [hf] at h; simp at h
      | some regions =>
        rw [hf] at h
        cases hr : rest.mapM (fun f =>
            (scanFile f.content cfg options.defaultBg).map
              (fun regions => (⟨f.path, regions⟩ : PreExtractedFile))) with
        | none =>
          rw [hr] at h
          simp [Option.bind] at h
        | some tail =>
          rw [hr] at h
          have h2 : ({ path := f.path, regions := regions } : PreExtractedFile) :: tail
              = files := by simpa using h
          subst h2
          obtain ⟨hlen, hget⟩ := ih tail hr
          refine ⟨by simp [hlen], ?_⟩
          intro k hk hk2
          cases k with
          | zero => exact ⟨rfl, by simp [hf]⟩
          | succ k' =>
            have hk' : k' < tail.length := by simpa using hk
            have hk2' : k' < rest.length := by simpa using hk2
            simpa using hget k' hk' hk2'

/-- Witness for `claim10_engine_refinement` on a concrete two-file
batch. -/
theorem claim10_witness :
    extractAndScan ⟨[⟨"a.tsx", "<div className=\"text-white\">a</div>"⟩,
        ⟨"b.tsx", "<span className=\"text-black\">b</span>"⟩], [], "bg-background"⟩ =
      extractAndScanSeq ⟨[⟨"a.tsx", "<div className=\"text-white\">a</div>"⟩,
        ⟨"b.tsx", "<span className=\"text-black\">b</span>"⟩], [], "bg-background"⟩
    ∧ (extractAndScan ⟨[⟨"a.tsx", "<div className=\"text-white\">a</div>"⟩,
        ⟨"b.tsx", "<span className=\"text-black\">b</span>"⟩], [],
        "bg-background"⟩).map List.length = some 2 := by
  refine ⟨claim10_engine_refinement.1 _, ?_⟩
  have h : extractAndScan ⟨[⟨"a.tsx", "<div className=\"text-white\">a</div>"⟩,
      ⟨"b.tsx", "<span className=\"text-black\">b</span>"⟩], [], "bg-background"⟩ =
      some [⟨"a.tsx", [⟨"text-white", 1, "bg-background", none, none, none, none,
        none, none, none, none⟩]⟩,
      ⟨"b.tsx", [⟨"text-black", 1, "bg-background", none, none, none, none,
        none, none, none, none⟩]⟩] := by decide
  have hl := (claim10_engine_refinement.2 _ _ h).1
  rw [h]
  simp [hl]

/-! ### Cursor-progress lemmas for the tokenizer loops -/

theorem findCharFrom_ge (s : List Char) (c : Char) :
    ∀ fuel i, i ≤ findCharFrom s c fuel i := by
  intro fuel
  induction fuel with
  | zero => intro i; simp [findCharFrom]
  | succ fuel ih =>
    intro i
    rw [findCharFrom]
    split_ifs with h1 h2
    · exact le_refl i
    · exact le_trans (Nat.le_succ i) (ih (i + 1))
    · exact le_refl i

theorem findStarSlash_ge (s : List Char) :
    ∀ fuel i, i ≤ findStarSlash s fuel i := by
  intro fuel
  induction fuel with
  | zero => intro i; simp [findStarSlash]
  | succ fuel ih =>
    intro i
    rw [findStarSlash]
    split_ifs with h1 h2
    · exact le_refl i
    · exact le_trans (Nat.le_succ i) (ih (i + 1))
    · exact le_refl i

theorem skipQuotedBody_ge (s : List Char) (q : Char) :
    ∀ fuel i, i ≤ skipQuotedBody s q fuel i := by
  intro fuel
  induction fuel with
  | zero => intro i; simp [skipQuotedBody]
  | succ fuel ih =>
    intro i
    rw [skipQuotedBody]
    split_ifs with h1 h2 h3
    · exact le_refl i
    · exact le_trans (by omega) (ih (i + 2))
    · exact le_trans (Nat.le_succ i) (ih (i + 1))
    · exact le_refl i

theorem skipQuoted_gt (s : List Char) (q : Char) (i : Nat) : i < skipQuoted s q i := by
  unfold skipQuoted
  have := skipQuotedBody_ge s q (s.length + 2) (i + 1)
  dsimp only
  split_ifs <;> omega

theorem skipQuotedPB_gt (s : List Char) (q : Char) (i : Nat) : i < skipQuotedPB s q i := by
  unfold skipQuotedPB
  have := skipQuotedBody_ge s q (s.length + 2) (i + 1)
  omega

theorem readTagNameEnd_ge (s : List Char) (start : Nat) :
    start ≤ readTagNameEnd s start := by
  unfold readTagNameEnd
  omega

theorem readTagNameEnd_le (s : List Char) (start : Nat) (h : start ≤ s.length) :
    readTagNameEnd s start ≤ s.length := by
  unfold readTagNameEnd
  have h1 : ((s.drop start).takeWhile isTagNameCh).length ≤ (s.drop start).length :=
    (List.takeWhile_sublist _).length_le
  have h2 : (s.drop start).length = s.length - start := List.length_drop start s
  omega

theorem skipWsFrom_ge (s : List Char) (i : Nat) : i ≤ skipWsFrom s i := by
  unfold skipWsFrom
  omega

theorem findTagCloseGo_of_ge (s : List Char) :
    ∀ fuel j depth, s.length ≤ j → findTagCloseGo s fuel j depth = s.length := by
  intro fuel j depth h
  cases fuel with
  | zero => rfl
  | succ fuel =>
    rw [findTagCloseGo]
    rw [if_neg (by omega)]

theorem findTagCloseGo_ge (s : List Char) :
    ∀ fuel j depth, j ≤ s.length → j ≤ findTagCloseGo s fuel j depth := by
  intro fuel
  induction fuel with
  | zero => intro j depth h; simp [findTagCloseGo, h]
  | succ fuel ih =>
    intro j depth h
    rw [findTagCloseGo]
    dsimp only
    split_ifs with h1 h2 h3 h4 h5 h6
    · rcases Nat.lt_or_ge (j + 1) s.length with hlt | hge
      · exact le_trans (Nat.le_succ j) (ih (j + 1) (depth + 1) hlt.le)
      · rw [findTagCloseGo_of_ge s fuel (j + 1) (depth + 1) hge]; omega
    · rcases Nat.lt_or_ge (j + 1) s.length with hlt | hge
      · exact le_trans (Nat.le_succ j) (ih (j + 1) (depth - 1) hlt.le)
      · rw [findTagCloseGo_of_ge s fuel (j + 1) (depth - 1) hge]; omega
    · have hq := skipQuoted_gt s (chAt s j) j
      rcases Nat.lt_or_ge (skipQuoted s (chAt s j) j) (s.length + 1) with hlt | hge
      · exact le_trans hq.le (ih _ depth (by omega))
      · rw [findTagCloseGo_of_ge s fuel _ depth (by omega)]; omega
    · omega
    · omega
    · rcases Nat.lt_or_ge (j + 1) s.length with hlt | hge
      · exact le_trans (Nat.le_succ j) (ih (j + 1) depth hlt.le)
      · rw [findTagCloseGo_of_ge s fuel (j + 1) depth hge]; omega
    · exact h

theorem findUnescapedGo_ge (s : List Char) (target : Char) :
    ∀ fuel i e, findUnescapedGo s target fuel i = some e → i ≤ e := by
  intro fuel
  induction fuel with
  | zero => intro i e h; simp [findUnescapedGo] at h
  | succ fuel ih =>
    intro i e h
    rw [findUnescapedGo] at h
    split_ifs at h with h1 h2 h3
    · exact le_trans (by omega) (ih (i + 2) e h)
    · exact le_of_eq (Option.some.inj h)
    · exact le_trans (Nat.le_succ i) (ih (i + 1) e h)

theorem ebpGo_ge (s : List Char) :
    ∀ fuel depth i e, ebpGo s fuel depth i = some e → i ≤ e := by
  intro fuel
  induction fuel with
  | zero => intro depth i e h; simp [ebpGo] at h
  | succ fuel ih =>
    intro depth i e h
    rw [ebpGo] at h
    dsimp only at h
    split_ifs at h
    all_goals first
      | exact le_trans (skipQuotedPB_gt s _ i).le (ih _ _ _ h)
      | exact le_trans (Nat.le_succ i) (ih _ _ _ h)
      | exact le_of_eq (Option.some.inj h)

theorem extractBalancedParens_gt (s : List Char) (openPos : Nat)
    (content : List Char) (e : Nat)
    (h : extractBalancedParens s openPos = some (content, e)) : openPos < e := by
  unfold extractBalancedParens at h
  split_ifs at h with h1
  cases hg : ebpGo s (s.length + 2) 1 (openPos + 1) with
  | none => rw [hg] at h; simp at h
  | some e2 =>
    rw [hg] at h
    simp only [Option.map_some', Option.some.injEq, Prod.mk.injEq] at h
    have := ebpGo_ge s (s.length + 2) 1 (openPos + 1) e2 hg
    omega

theorem findUnescaped_ge {s : List Char} {t : Char} {a e : Nat}
    (h : findUnescaped s t a = some e) : a ≤ e :=
  findUnescapedGo_ge s t (s.length + 2) a e h

theorem lineAt_mono (offs : List Nat) {a b : Nat} (h : a ≤ b) :
    lineAt offs a ≤ lineAt offs b := by
  unfold lineAt
  induction offs with
  | nil => simp
  | cons o rest ih =>
    simp only [List.countP_cons, decide_eq_true_eq]
    split_ifs <;> omega

theorem classLines_nil : classLines [] = [] := rfl

theorem classLines_classAttr (v : String) (l : Nat) (r : String) (rest : List JsxEvent) :
    classLines (.classAttr v l r :: rest) = l :: classLines rest := rfl

theorem classLines_tagOpen (n : String) (sc : Bool) (r : String) (rest : List JsxEvent) :
    classLines (.tagOpen n sc r :: rest) = classLines rest := rfl

theorem classLines_tagClose (n : String) (rest : List JsxEvent) :
    classLines (.tagClose n :: rest) = classLines rest := rfl

theorem classLines_comment (c : String) (l : Nat) (rest : List JsxEvent) :
    classLines (.comment c l :: rest) = classLines rest := rfl

theorem classLines_fileEnd (rest : List JsxEvent) :
    classLines (.fileEnd :: rest) = classLines rest := rfl

theorem classLines_append (a b : List JsxEvent) :
    classLines (a ++ b) = classLines a ++ classLines b := by
  simp [classLines, classEvents, List.filterMap_append]

/-- A successful `className=` value recognition advances the attribute
cursor strictly. -/
theorem attrHit_gt {s : List Char} {tc j : Nat} {content : List Char} {j2 : Nat}
    (h : attrHit s tc j = some (content, j2)) : j < j2 := by
  have hae := skipWsFrom_ge s (j + 10)
  have hin := skipWsFrom_ge s (skipWsFrom s (j + 10) + 1)
  unfold attrHit at h
  dsimp only at h
  split_ifs at h with h1 h2 h3 h4 h5 h6
  · cases hfu : findUnescaped s chQuote (skipWsFrom s (j + 10) + 1) with
    | none => rw [hfu] at h; exact absurd h (by simp)
    | some strEnd =>
      rw [hfu] at h
      have hge := findUnescaped_ge hfu
      simp only [Option.some.injEq, Prod.mk.injEq] at h
      omega
  · cases hfu : findUnescaped s (chAt s (skipWsFrom s (skipWsFrom s (j + 10) + 1)))
        (skipWsFrom s (skipWsFrom s (j + 10) + 1) + 1) with
    | none => rw [hfu] at h; exact absurd h (by simp)
    | some strEnd =>
      rw [hfu] at h
      have hge := findUnescaped_ge hfu
      simp only [Option.some.injEq, Prod.mk.injEq] at h
      omega
  · cases hfu : findUnescaped s chBacktick
        (skipWsFrom s (skipWsFrom s (j + 10) + 1) + 1) with
    | none => rw [hfu] at h; exact absurd h (by simp)
    | some tEnd =>
      rw [hfu] at h
      have hge := findUnescaped_ge hfu
      simp only [Option.some.injEq, Prod.mk.injEq] at h
      omega
  · cases hep : extractBalancedParens s (skipWsFrom s (skipWsFrom s (j + 10) + 1) + 2) with
    | none => rw [hep] at h; exact absurd h (by simp)
    | some p =>
      obtain ⟨cont, e⟩ := p
      rw [hep] at h
      have hge := extractBalancedParens_gt s _ _ _ hep
      simp only [Option.some.injEq, Prod.mk.injEq] at h
      omega
  · cases hep : extractBalancedParens s (skipWsFrom s (skipWsFrom s (j + 10) + 1) + 4) with
    | none => rw [hep] at h; exact absurd h (by simp)
    | some p =>
      obtain ⟨cont, e⟩ := p
      rw [hep] at h
      have hge := extractBalancedParens_gt s _ _ _ hep
      simp only [Option.some.injEq, Prod.mk.injEq] at h
      omega

/-- Lines of the class events emitted by the attribute scan are sorted
and bounded between the scan cursor's line and the tag-close line. -/
theorem scanTagAttrsGo_spec (s : List Char) (offs : List Nat) (tc : Nat) (raw : String) :
    ∀ fuel j,
      (classLines (scanTagAttrsGo s offs tc raw fuel j)).Pairwise (· ≤ ·)
      ∧ ∀ l ∈ classLines (scanTagAttrsGo s offs tc raw fuel j),
          lineAt offs j ≤ l ∧ l ≤ lineAt offs tc := by
  intro fuel
  induction fuel with
  | zero => intro j; simp [scanTagAttrsGo, classLines_nil]
  | succ fuel ih =>
    intro j
    rw [scanTagAttrsGo]
    split_ifs with h1 h2
    · cases hah : attrHit s tc j with
      | none =>
        obtain ⟨ihp, ihb⟩ := ih (j + 10)
        refine ⟨ihp, fun l hl => ?_⟩
        exact ⟨le_trans (lineAt_mono offs (by omega)) (ihb l hl).1, (ihb l hl).2⟩
      | some p =>
        obtain ⟨content, j2⟩ := p
        have hgt := attrHit_gt hah
        obtain ⟨ihp, ihb⟩ := ih j2
        rw [classLines_classAttr]
        constructor
        · refine List.Pairwise.cons (fun l hl => ?_) ihp
          exact le_trans (lineAt_mono offs hgt.le) (ihb l hl).1
        · intro l hl
          rcases List.mem_cons.mp hl with hl | hl
          · subst hl
            exact ⟨le_refl _, lineAt_mono offs (by omega)⟩
          · exact ⟨le_trans (lineAt_mono offs hgt.le) (ihb l hl).1, (ihb l hl).2⟩
    · obtain ⟨ihp, ihb⟩ := ih (j + 1)
      refine ⟨ihp, fun l hl => ?_⟩
      exact ⟨le_trans (lineAt_mono offs (by omega)) (ihb l hl).1, (ihb l hl).2⟩
    · simp [classLines_nil]

/-- Class-event lines emitted by the default/builder-call step: at most
one event, at the current cursor's line, with strict cursor progress. -/
theorem stepDefault_spec (s : List Char) (offs : List Nat) (i : Nat) :
    i < (stepDefault s offs i).2
    ∧ (classLines (stepDefault s offs i).1).Pairwise (· ≤ ·)
    ∧ ∀ l ∈ classLines (stepDefault s offs i).1, l = lineAt offs i := by
  unfold stepDefault
  dsimp only
  split_ifs with h1 h2 h3 h4
  all_goals dsimp only
  · cases hep : extractBalancedParens s (i + 2) with
    | none =>
      simp only [hep]
      exact ⟨by omega, by simp [classLines_nil], by simp [classLines_nil]⟩
    | some p =>
      obtain ⟨content, e⟩ := p
      have hgt := extractBalancedParens_gt s _ _ _ hep
      simp only [hep]
      refine ⟨by omega, by simp [classLines_classAttr, classLines_nil], ?_⟩
      intro l hl
      simp only [classLines_classAttr, classLines_nil, List.mem_singleton] at hl
      exact hl
  · cases hep : extractBalancedParens s (i + 4) with
    | none =>
      simp only [hep]
      exact ⟨by omega, by simp [classLines_nil], by simp [classLines_nil]⟩
    | some p =>
      obtain ⟨content, e⟩ := p
      have hgt := extractBalancedParens_gt s _ _ _ hep
      simp only [hep]
      refine ⟨by omega, by simp [classLines_classAttr, classLines_nil], ?_⟩
      intro l hl
      simp only [classLines_classAttr, classLines_nil, List.mem_singleton] at hl
      exact hl
  · cases hep : extractBalancedParens s (i + 3) with
    | none =>
      simp only [hep]
      exact ⟨by omega, by simp [classLines_nil], by simp [classLines_nil]⟩
    | some p =>
      obtain ⟨content, e⟩ := p
      have hgt := extractBalancedParens_gt s _ _ _ hep
      simp only [hep]
      refine ⟨by omega, by simp [classLines_classAttr, classLines_nil], ?_⟩
      intro l hl
      simp only [classLines_classAttr, classLines_nil, List.mem_singleton] at hl
      exact hl
  · exact ⟨by omega, by simp [classLines_nil], by simp [classLines_nil]⟩
  · exact ⟨by omega, by simp [classLines_nil], by simp [classLines_nil]⟩

/-- One tokenizer step advances the cursor strictly, and its class-event
lines are sorted and bounded by the lines of the step's cursor span. -/
theorem stepTok_spec {s : List Char} {offs : List Nat} {i i2 : Nat} {evs : List JsxEvent}
    (_hi : i < s.length) (h : stepTok s offs i = some (evs, i2)) :
    i < i2 ∧ (classLines evs).Pairwise (· ≤ ·)
    ∧ ∀ l ∈ classLines evs, lineAt offs i ≤ l ∧ l ≤ lineAt offs i2 := by
  unfold stepTok at h
  dsimp only at h
  split_ifs at h
  all_goals try split at h
  all_goals first
    | exact Option.noConfusion h
    | (have hp := Option.some.inj h
       obtain ⟨hgt, hpw, hmem⟩ := stepDefault_spec s offs i
       rw [hp] at hgt hpw hmem
       refine ⟨hgt, hpw, fun l hl => ⟨le_of_eq (hmem l hl).symm, ?_⟩⟩
       rw [hmem l hl]
       exact lineAt_mono offs hgt.le)
    | (simp only [Option.some.injEq, Prod.mk.injEq] at h
       obtain ⟨hevs, hi2⟩ := h
       subst hevs
       subst hi2
       refine ⟨?_, ?_, ?_⟩
       · have f1 := findCharFrom_ge s chNewline (s.length + 2) (i + 2)
         have f2 := findStarSlash_ge s (s.length + 2) (i + 2)
         have f3 := findCharFrom_ge s '>' (s.length + 2) (readTagNameEnd s (i + 2))
         have f4 := readTagNameEnd_ge s (i + 2)
         have f5 := skipQuoted_gt s (chAt s i) i
         have f6 := skipQuoted_gt s chBacktick i
         omega
       · simp [classLines_comment, classLines_tagClose, classLines_nil]
       · simp [classLines_comment, classLines_tagClose, classLines_nil])
    | (simp only [Option.some.injEq, Prod.mk.injEq] at h
       obtain ⟨hevs, hi2⟩ := h
       subst hevs
       subst hi2
       have hne1 : i + 1 ≤ s.length := by omega
       have hge := readTagNameEnd_ge s (i + 1)
       have hle := readTagNameEnd_le s (i + 1) hne1
       have htc : readTagNameEnd s (i + 1) ≤ findTagClose s (readTagNameEnd s (i + 1)) :=
         findTagCloseGo_ge s (s.length + 2) _ 0 hle
       obtain ⟨hpw, hb⟩ := scanTagAttrsGo_spec s offs
         (findTagClose s (readTagNameEnd s (i + 1)))
         (sliceL s i (findTagClose s (readTagNameEnd s (i + 1)))).asString
         (s.length + 2) (readTagNameEnd s (i + 1))
       rw [classLines_tagOpen]
       refine ⟨by omega, hpw, fun l hl => ?_⟩
       exact ⟨le_trans (lineAt_mono offs (by omega)) (hb l hl).1, (hb l hl).2⟩)

/-- Class-event lines of the whole scan are sorted and bounded below by
the line of the starting cursor. -/
theorem scanLoopTok_lines (s : List Char) (offs : List Nat) :
    ∀ fuel i evs, scanLoopTok s offs fuel i = some evs →
      (classLines evs).Pairwise (· ≤ ·)
      ∧ ∀ l ∈ classLines evs, lineAt offs i ≤ l := by
  intro fuel
  induction fuel with
  | zero =>
    intro i evs h
    simp only [scanLoopTok, Option.some.injEq] at h
    subst h
    simp [classLines_nil]
  | succ fuel ih =>
    intro i evs h
    rw [scanLoopTok] at h
    split_ifs at h with h1
    · cases hst : stepTok s offs i with
      | none => rw [hst] at h; exact Option.noConfusion h
      | some p =>
        obtain ⟨e1, i2⟩ := p
        rw [hst] at h
        dsimp only at h
        cases hrest : scanLoopTok s offs fuel i2 with
        | none => rw [hrest] at h; exact Option.noConfusion h
        | some rest =>
          rw [hrest] at h
          simp only [Option.map_some', Option.some.injEq] at h
          subst h
          obtain ⟨hlt, hpw1, hb1⟩ := stepTok_spec h1 hst
          obtain ⟨hpw2, hb2⟩ := ih i2 rest hrest
          rw [classLines_append]
          constructor
          · rw [List.pairwise_append]
            refine ⟨hpw1, hpw2, fun x hx y hy => ?_⟩
            exact le_trans (hb1 x hx).2 (hb2 y hy)
          · intro l hl
            rcases List.mem_append.mp hl with hl | hl
            · exact (hb1 l hl).1
            · exact le_trans (lineAt_mono offs hlt.le) (hb2 l hl)
    · simp only [Option.some.injEq] at h
      subst h
      simp [classLines_nil]

/-- Folding the orchestrator over an event stream appends exactly one
region per class-attribute event, carrying that event's class text and
line, in event order. -/
theorem foldl_orchStep_regions (evs : List JsxEvent) (st : OrchState) :
    ((evs.foldl orchStep st).regions).map (fun r => (r.content, r.startLine)) =
      (st.regions).map (fun r => (r.content, r.startLine)) ++
        (classEvents evs).map (fun t => (t.1, t.2.1)) := by
  induction evs generalizing st with
  | nil => simp [classEvents]
  | cons e rest ih =>
    cases e with
    | tagOpen n sc raw =>
      rw [List.foldl_cons, ih]
      simp [classEvents, orchStep, orchOnTagOpen]
    | tagClose n =>
      rw [List.foldl_cons, ih]
      simp [classEvents, orchStep, orchOnTagClose]
    | comment c l =>
      rw [List.foldl_cons, ih]
      simp [classEvents, orchStep, orchOnComment]
    | classAttr v l raw =>
      rw [List.foldl_cons, ih]
      simp [classEvents, orchStep, orchOnClassAttr, orchBuiltRegion, recordRegion]
    | fileEnd =>
      rw [List.foldl_cons, ih]
      simp [classEvents, orchStep]

/-- C1 counterexample: the claim quantifies over every input source
string, but on `"/*"` the scanner panics (the C9 block-comment slice
bug) and `scan_file` produces no region list at all. -/
theorem claim1_counterexample :
    scanFile "/*" [] "bg-background" = none := by decide

/-- C1 (amended): for every source on which the scan completes (no C9
panic), `scan_file` produces exactly one region per recognized
class-attribute event — carrying that event's class text and 1-based
line — in the order the events are recognized in the left-to-right
scan, and the recorded start lines are non-decreasing (source order). -/
theorem claim1_regions_one_per_event :
    ∀ (source : String) (cfg : List (String × String)) (bg : String)
      (evs : List JsxEvent),
      scanJsx source = some evs →
      ∃ rs, scanFile source cfg bg = some rs
        ∧ rs.map (fun r => (r.content, r.startLine)) =
            (classEvents evs).map (fun t => (t.1, t.2.1))
        ∧ (rs.map (fun r => r.startLine)).Pairwise (· ≤ ·) := by
  intro source cfg bg evs h
  refine ⟨(evs.foldl orchStep (initOrch cfg bg)).regions, ?_, ?_, ?_⟩
  · unfold scanFile
    rw [h]
    rfl
  · have hproj := foldl_orchStep_regions evs (initOrch cfg bg)
    simpa [initOrch] using hproj
  · have hproj := foldl_orchStep_regions evs (initOrch cfg bg)
    have hlines : ((evs.foldl orchStep (initOrch cfg bg)).regions).map
        (fun r => r.startLine) = classLines evs := by
      have h2 := congrArg (List.map Prod.snd) hproj
      simpa [List.map_map, classLines, initOrch, Function.comp] using h2
    rw [hlines]
    unfold scanJsx scanJsxL at h
    cases hl : scanLoopTok source.toList (buildLineOffsets source.toList)
        (source.toList.length + 1) 0 with
    | none => rw [hl] at h; exact Option.noConfusion h
    | some evs0 =>
      rw [hl] at h
      simp only [Option.map_some', Option.some.injEq] at h
      subst h
      rw [classLines_append]
      have hs := (scanLoopTok_lines source.toList (buildLineOffsets source.toList)
        (source.toList.length + 1) 0 evs0 hl).1
      simpa [classLines_fileEnd, classLines_nil] using hs

/-- Witness for `claim1_regions_one_per_event` on a concrete one-tag
source. -/
theorem claim1_witness :
    ∃ rs, scanFile "<div className=\"bg-red-500 text-white\">x</div>" []
        "bg-background" = some rs
      ∧ rs.map (fun r => (r.content, r.startLine)) =
          (classEvents
            [.tagOpen "div" false "<div className=\"bg-red-500 text-white\">",
             .classAttr "bg-red-500 text-white" 1
               "<div className=\"bg-red-500 text-white\">",
             .tagClose "div", .fileEnd]).map (fun t => (t.1, t.2.1))
      ∧ (rs.map (fun r => r.startLine)).Pairwise (· ≤ ·) :=
  claim1_regions_one_per_event _ [] "bg-background" _ (by decide)
